import Mathlib

/-!
Shallow embedding of `src/streamlit_app.py` (fantasy-football draft-strategy
dashboard): the initial data load (`load_data`), the filter engine
(`filter_dataframe`), the drafted-status reconciliation loop (lines 196-210),
the rating cell-style classifier (`cellstyle_jscode`), and the restricted
cell-editor value list for the `drafted` column.

A pandas DataFrame of player rows is modelled as a `List PlayerRecord` in row
order.  Numeric CSV columns are opaque payload for every operation considered
here, so they are modelled as `Int`; the `Round` column is only ever compared
for exact equality against a sidebar selection whose inactive sentinel is the
string "All", so it is modelled as `String` (exact equality is all that is
used).  Fallible steps (the `.iloc[0]` lookup on an empty selection) are made
explicit in the `ReconcileOutcome` type: the in-place mutations performed
before the failing row are kept in the outcome, exactly as the mutated
`st.session_state.df` survives the uncaught exception in the code.
-/

/-- One row of the draft-strategy table: the columns of
`data/draft_strategy.csv` (Rank, Player, Position, Team, Value, VBD, Tier,
Rating, Rookie, Round, Analyst Rating) plus the mutable `drafted` column that
`load_data` adds. -/
structure PlayerRecord where
  rank : Int
  player : String
  position : String
  team : String
  value : Int
  vbd : Int
  tier : Int
  rating : Int
  rookie : Bool
  round : String
  analystRating : String
  drafted : String
  deriving DecidableEq

/-- All fields of a `PlayerRecord` except the mutable `drafted` status; used to
state frame properties ("no field other than `drafted` changes"). -/
structure PlayerBase where
  rank : Int
  player : String
  position : String
  team : String
  value : Int
  vbd : Int
  tier : Int
  rating : Int
  rookie : Bool
  round : String
  analystRating : String
  deriving DecidableEq

/-- Projection of a `PlayerRecord` onto every field other than `drafted`. -/
def base (r : PlayerRecord) : PlayerBase :=
  ⟨r.rank, r.player, r.position, r.team, r.value, r.vbd, r.tier, r.rating,
   r.rookie, r.round, r.analystRating⟩

/-- `load_data` (lines 10-13): after reading the CSV, `df['drafted'] = 'False'`
assigns the string 'False' to the `drafted` column of every row.  The CSV read
itself is an external collaborator; its result is the input list. -/
def load_data (df : List PlayerRecord) : List PlayerRecord :=
  df.map fun r => { r with drafted := "False" }

/-- One step of the regex matching performed by pandas
`Series.str.contains(search_term, case=False)` (`regex=True` is the pandas
default, `case=False` adds `re.IGNORECASE`), for the fragment of patterns made
of literal characters and the metacharacter '.': a pattern '.' matches any
character, any other pattern character matches case-insensitively.  Returns
true iff the pattern matches a prefix of the text. -/
def reMatchAt : List Char → List Char → Bool
  | [], _ => true
  | _ :: _, [] => false
  | p :: ps, c :: cs => (p = '.' || p.toLower = c.toLower) && reMatchAt ps cs

/-- `re.search`: the pattern matches at some position of the text. -/
def reSearchList (pat : List Char) : List Char → Bool
  | [] => reMatchAt pat []
  | c :: cs => reMatchAt pat (c :: cs) || reSearchList pat cs

/-- `filtered["Player"].str.contains(search_term, case=False)` for one cell
(lines 27-28): case-insensitive regex search of the term in the player name.
Faithful only for terms inside the literal-and-dot fragment (see
`plainSearchTerm`): for terms with other metacharacters the program follows
full Python `re` semantics — quantifiers such as '*' take effect, and invalid
patterns such as "(" raise `re.error` — which this embedding does not model,
so no theorem quantifying over search terms asserts anything outside the
fragment. -/
def str_contains (s pat : String) : Bool :=
  reSearchList pat.data s.data

/-- `filter_dataframe` (lines 20-29): three sequential conditional filters,
each skipped when its criterion is inactive ("All" for the select boxes, the
empty string for the search box). -/
def filter_dataframe (df : List PlayerRecord) (position round search_term : String) :
    List PlayerRecord :=
  let byPos := if position ≠ "All" then df.filter (fun r => decide (r.position = position)) else df
  let byRound := if round ≠ "All" then byPos.filter (fun r => decide (r.round = round)) else byPos
  if search_term ≠ "" then byRound.filter (fun r => str_contains r.player search_term) else byRound

/-- The value list of the restricted `agSelectCellEditor` for the `drafted`
column (line 119): the only values the grid editor can produce. -/
def draftedEditorValues : List String := ["False", "My Team", "Other Team"]

/-- The boolean-mask assignment
`df.loc[df['Player'] == name, 'drafted'] = v` (lines 204-205): every row whose
`Player` equals `name` gets its `drafted` field set to `v`; all other rows are
untouched. -/
def commitDrafted (df : List PlayerRecord) (name v : String) : List PlayerRecord :=
  df.map fun r => if r.player = name then { r with drafted := v } else r

/-- `df.loc[df['Player'] == name, 'drafted'].iloc[0]` (lines 201-202): the
`drafted` value of the first row whose `Player` equals `name`; `none` models
the `IndexError` raised by `.iloc[0]` when no row matches. -/
def firstDrafted (df : List PlayerRecord) (name : String) : Option String :=
  (df.find? fun r => decide (r.player = name)).map (·.drafted)

/-- Outcome of the reconciliation loop.  `ok df changed updated` is normal
termination with the final dataset, the `dataframe_changed` flag and the
`drafted_players_updated` list; `unknownKey df p` is the uncaught `IndexError`
raised while looking up player `p`, carrying the dataset as already mutated by
the rows processed before the failing one (in the code the exception escapes
the loop but the in-place mutations of `st.session_state.df` persist). -/
inductive ReconcileOutcome where
  | ok (df : List PlayerRecord) (changed : Bool) (updated : List String)
  | unknownKey (df : List PlayerRecord) (player : String)
  deriving DecidableEq

/-- The reconciliation loop body (lines 196-210): for each row of the edited
view in order, look up the first dataset row with the same `Player`; raise if
there is none; if the `drafted` values differ, assign the new value to every
dataset row with that `Player`, set the changed flag and append the name to
the updated list. -/
def reconcileAux (df : List PlayerRecord) (changed : Bool) (updated : List String) :
    List PlayerRecord → ReconcileOutcome
  | [] => .ok df changed updated
  | row :: rest =>
    match firstDrafted df row.player with
    | none => .unknownKey df row.player
    | some orig =>
      if orig ≠ row.drafted then
        reconcileAux (commitDrafted df row.player row.drafted) true
          (updated ++ [row.player]) rest
      else
        reconcileAux df changed updated rest

/-- Reconciliation of the grid's edited view against the session dataset:
the loop starts with `dataframe_changed = False` and
`drafted_players_updated = []`. -/
def reconcile (df view : List PlayerRecord) : ReconcileOutcome :=
  reconcileAux df false [] view

/-- The dataset held in `st.session_state.df` after the loop, whether it
finished normally or an exception escaped. -/
def outcomeDf : ReconcileOutcome → List PlayerRecord
  | .ok df _ _ => df
  | .unknownKey df _ => df

/-- Reconciliation raised the unknown-key error, for a key that is indeed
absent from the pre-reconciliation dataset. -/
def raisesUnknownKey (df view : List PlayerRecord) : Bool :=
  match reconcile df view with
  | .unknownKey _ p => (firstDrafted df p).isNone
  | .ok _ _ _ => false

/-- First row of the edited view carrying a given player name, if any. -/
def viewLookup (view : List PlayerRecord) (name : String) : Option PlayerRecord :=
  view.find? fun row => decide (row.player = name)

/-- The dataset the spec expects after a successful reconciliation: each row
whose name appears in the edited view takes the view's `drafted` value, all
other rows are unchanged. -/
def expectedDf (df view : List PlayerRecord) : List PlayerRecord :=
  df.map fun r =>
    match viewLookup view r.player with
    | some row => { r with drafted := row.drafted }
    | none => r

/-- The keys the spec expects to be reported as changed: the names of the view
rows whose `drafted` value differs from the dataset's current value for that
key, in view order. -/
def diffKeys (df view : List PlayerRecord) : List String :=
  (view.filter fun row => decide (firstDrafted df row.player ≠ some row.drafted)).map (·.player)

/-- A two-tone presentation style: text color and background color. -/
structure CellStyle where
  color : String
  backgroundColor : String
  deriving DecidableEq

/-- A JavaScript cell value as seen by the grid's style callback: a number or
a string.  JavaScript strict equality (`===`) never identifies a string with a
number, which the two constructors keep apart. -/
inductive CellValue where
  | num (n : Int)
  | str (s : String)
  deriving DecidableEq

/-- `cellstyle_jscode` (lines 127-136): the if-chain of the JavaScript style
callback for the Rating column, with strict equality against the numbers 5, 4,
2, 1 and a default of black on white. -/
def cellStyleRating (value : CellValue) : CellStyle :=
  if value = .num 5 then ⟨"white", "darkgreen"⟩
  else if value = .num 4 then ⟨"black", "lightgreen"⟩
  else if value = .num 2 then ⟨"black", "lightcoral"⟩
  else if value = .num 1 then ⟨"white", "darkred"⟩
  else ⟨"black", "white"⟩

/-- Modelled from the spec: the rating-label style classifier of the stats
browser app.  The repository's second dashboard (the stats browser) is not
under `src/` — only the draft app `streamlit_app.py` is — so the categorical
half of the spec's section 4.3 style table ("mega bullish"/"bullish"/
"bearish"/"mega bearish", default black on white) is modelled from the spec's
words. -/
def ratingLabelStyle (label : String) : CellStyle :=
  if label = "mega bullish" then ⟨"white", "darkgreen"⟩
  else if label = "bullish" then ⟨"black", "lightgreen"⟩
  else if label = "bearish" then ⟨"black", "lightcoral"⟩
  else if label = "mega bearish" then ⟨"white", "darkred"⟩
  else ⟨"black", "white"⟩

/-- Convenience constructor for concrete rows: only the fields the claims
exercise (name, position, round, drafted) vary, the opaque payload is fixed. -/
def mkRec (name pos rd dr : String) : PlayerRecord :=
  ⟨0, name, pos, "T", 0, 0, 0, 0, false, rd, "", dr⟩

/-- The spec's scenario dataset: [{name:"A", pos:"RB", drafted:"False"},
{name:"B", pos:"WR", drafted:"False"}]. -/
def dfScenario : List PlayerRecord :=
  [mkRec "A" "RB" "1" "False", mkRec "B" "WR" "1" "False"]

/-- The spec's scenario edited view: same key set, A's drafted set to
"My Team". -/
def viewScenario : List PlayerRecord :=
  [mkRec "A" "RB" "1" "My Team", mkRec "B" "WR" "1" "False"]

/-- Dataset for the unknown-key counterexample. -/
def dfC1 : List PlayerRecord :=
  [mkRec "A" "RB" "1" "False", mkRec "B" "WR" "2" "False"]

/-- Edited view whose first row carries a real edit and whose second row
carries a key absent from the dataset. -/
def viewC1 : List PlayerRecord :=
  [mkRec "A" "RB" "1" "My Team", mkRec "X" "QB" "3" "My Team"]

/-- One-row dataset for the unknown-key witness. -/
def dfW1 : List PlayerRecord := [mkRec "A" "RB" "1" "False"]

/-- One-row edited view whose key is absent from `dfW1`. -/
def viewW1 : List PlayerRecord := [mkRec "Z" "QB" "1" "False"]

/-- Dataset with a duplicated player name, for the name-matching witness. -/
def dfW10 : List PlayerRecord :=
  [mkRec "A" "RB" "1" "False", mkRec "A" "RB" "2" "False", mkRec "B" "WR" "1" "False"]

/-- One-row dataset for the drafted-invariant witness. -/
def dfW9 : List PlayerRecord := [mkRec "A" "RB" "1" "False"]

/-- One-row edited view for the drafted-invariant witness. -/
def viewW9 : List PlayerRecord := [mkRec "A" "RB" "1" "My Team"]

/-- The per-row function of `commitDrafted` never changes the `Player` field. -/
theorem player_commit (r : PlayerRecord) (n v : String) :
    (if r.player = n then { r with drafted := v } else r).player = r.player := by
  split <;> rfl

/-- `commitDrafted` leaves the `Player` column unchanged. -/
theorem commit_players (df : List PlayerRecord) (n v : String) :
    (commitDrafted df n v).map (·.player) = df.map (·.player) := by
  unfold commitDrafted
  rw [List.map_map]
  apply List.map_congr_left
  intro r _
  exact player_commit r n v

/-- The lookup fails exactly when no row carries the name. -/
theorem firstDrafted_eq_none_iff (df : List PlayerRecord) (m : String) :
    firstDrafted df m = none ↔ ∀ r ∈ df, r.player ≠ m := by
  simp [firstDrafted, List.find?_eq_none]

/-- `commitDrafted` neither creates nor removes player names. -/
theorem firstDrafted_commit_none_iff (df : List PlayerRecord) (n v m : String) :
    firstDrafted (commitDrafted df n v) m = none ↔ firstDrafted df m = none := by
  rw [firstDrafted_eq_none_iff, firstDrafted_eq_none_iff]
  unfold commitDrafted
  simp only [List.mem_map]
  constructor
  · intro h r hr
    have h2 := h _ ⟨r, hr, rfl⟩
    rwa [player_commit] at h2
  · rintro h r' ⟨r, hr, rfl⟩
    rw [player_commit]
    exact h r hr

/-- Committing a value for one name leaves lookups of any other name alone. -/
theorem firstDrafted_commit_ne (df : List PlayerRecord) (n v m : String) (h : m ≠ n) :
    firstDrafted (commitDrafted df n v) m = firstDrafted df m := by
  induction df with
  | nil => rfl
  | cons r t ih =>
    have hcons : commitDrafted (r :: t) n v =
        (if r.player = n then { r with drafted := v } else r) :: commitDrafted t n v := rfl
    by_cases hrm : r.player = m
    · have hrn : ¬ r.player = n := by
        intro hn
        exact h (by rw [← hrm, hn])
      rw [hcons, if_neg hrn]
      unfold firstDrafted
      rw [List.find?_cons_of_pos _ (by simp [hrm]), List.find?_cons_of_pos _ (by simp [hrm])]
    · rw [hcons]
      unfold firstDrafted
      rw [List.find?_cons_of_neg _ (by simp [player_commit, hrm]),
        List.find?_cons_of_neg _ (by simp [hrm])]
      exact ih

/-- If no row of the view carries name `n`, the changed-key computation ignores
a commit for `n`. -/
theorem diffKeys_commit (df rest : List PlayerRecord) (n v : String)
    (h : ∀ row ∈ rest, row.player ≠ n) :
    diffKeys (commitDrafted df n v) rest = diffKeys df rest := by
  unfold diffKeys
  congr 1
  apply List.filter_congr
  intro row hrow
  rw [firstDrafted_commit_ne df n v row.player (h row hrow)]

/-- Looking up a view starting with a row of the wanted name finds that row. -/
theorem viewLookup_cons_pos (rest : List PlayerRecord) (row : PlayerRecord) (m : String)
    (h : row.player = m) : viewLookup (row :: rest) m = some row := by
  unfold viewLookup
  exact List.find?_cons_of_pos _ (by simp [h])

/-- Looking up a view starting with a row of another name skips that row. -/
theorem viewLookup_cons_neg (rest : List PlayerRecord) (row : PlayerRecord) (m : String)
    (h : row.player ≠ m) : viewLookup (row :: rest) m = viewLookup rest m := by
  unfold viewLookup
  exact List.find?_cons_of_neg _ (by simp [h])

/-- Looking up a name no row of the view carries fails. -/
theorem viewLookup_eq_none (rest : List PlayerRecord) (m : String)
    (h : ∀ row ∈ rest, row.player ≠ m) : viewLookup rest m = none := by
  unfold viewLookup
  rw [List.find?_eq_none]
  intro row hrow
  simp only [decide_eq_true_eq]
  exact h row hrow

/-- No row of the edited view means nothing to reconcile: the spec-expected
dataset is the dataset itself. -/
theorem expectedDf_nil (df : List PlayerRecord) : expectedDf df [] = df := by
  unfold expectedDf viewLookup
  simp

/-- In a dataset with unique names, the lookup of a member row's name returns
that row's `drafted` value. -/
theorem firstDrafted_of_mem_nodup (df : List PlayerRecord) (r : PlayerRecord)
    (hdnd : (df.map (·.player)).Nodup) (hr : r ∈ df) :
    firstDrafted df r.player = some r.drafted := by
  induction df with
  | nil => cases hr
  | cons a t ih =>
    rw [List.map_cons, List.nodup_cons] at hdnd
    rcases List.mem_cons.1 hr with rfl | hrt
    · unfold firstDrafted
      rw [List.find?_cons_of_pos _ (by simp)]
      rfl
    · by_cases ha : a.player = r.player
      · exfalso
        apply hdnd.1
        rw [ha]
        exact List.mem_map.2 ⟨r, hrt, rfl⟩
      · unfold firstDrafted
        rw [List.find?_cons_of_neg _ (by simp [ha])]
        exact ih hdnd.2 hrt

/-- A conditional filter stage keeps a sublist of its input. -/
theorem filterIf_sublist {α : Type} (c : Prop) [Decidable c] (p : α → Bool) (l : List α) :
    (if c then l.filter p else l).Sublist l := by
  split
  · exact List.filter_sublist l
  · exact List.Sublist.refl l

/-- C6: for every Dataset and FilterCriteria, the filter engine's output is a
subsequence of the Dataset in original order: no reordering, no duplication,
no foreign record. -/
theorem filter_dataframe_sublist (df : List PlayerRecord) (position round search_term : String) :
    (filter_dataframe df position round search_term).Sublist df := by
  unfold filter_dataframe
  exact (filterIf_sublist _ _ _).trans ((filterIf_sublist _ _ _).trans (filterIf_sublist _ _ _))

/-- C8: the Rating/Style classifier is total over the rating domain and maps
rating 5 to white on dark green, 4 to black on light green, 2 to black on
light coral, 1 to white on dark red, the label "bearish" to black on light
coral (spec-modelled stats-app half), and every other value — every other
number, 3 included, and every string reaching the draft app's callback — to
the default black on white. -/
theorem style_classifier_total :
    cellStyleRating (.num 5) = ⟨"white", "darkgreen"⟩ ∧
    cellStyleRating (.num 4) = ⟨"black", "lightgreen"⟩ ∧
    cellStyleRating (.num 2) = ⟨"black", "lightcoral"⟩ ∧
    cellStyleRating (.num 1) = ⟨"white", "darkred"⟩ ∧
    ratingLabelStyle "bearish" = ⟨"black", "lightcoral"⟩ ∧
    (∀ n : Int, n ≠ 5 → n ≠ 4 → n ≠ 2 → n ≠ 1 →
      cellStyleRating (.num n) = ⟨"black", "white"⟩) ∧
    (∀ s : String, cellStyleRating (.str s) = ⟨"black", "white"⟩) := by
  refine ⟨rfl, rfl, rfl, rfl, rfl, ?_, ?_⟩
  · intro n h5 h4 h2 h1
    simp [cellStyleRating, h5, h4, h2, h1]
  · intro s
    simp [cellStyleRating]

/-- Witness for C8: rating 3 is outside the enumerated set and takes the
default style. -/
theorem style_classifier_total_witness :
    cellStyleRating (.num 3) = ⟨"black", "white"⟩ :=
  style_classifier_total.2.2.2.2.2.1 3 (by decide) (by decide) (by decide) (by decide)

/-- With no `drafted` difference anywhere, the loop just walks the view and
keeps its accumulators. -/
theorem reconcileAux_no_diff (view : List PlayerRecord) :
    ∀ (df : List PlayerRecord) (changed : Bool) (updated : List String),
      (∀ row ∈ view, firstDrafted df row.player = some row.drafted) →
      reconcileAux df changed updated view = .ok df changed updated := by
  induction view with
  | nil => intro df c u _; rfl
  | cons row rest ih =>
    intro df c u h
    have hrow := h row (List.mem_cons_self row rest)
    simp only [reconcileAux, hrow]
    rw [if_neg (by simp)]
    exact ih df c u fun row2 h2 => h row2 (List.mem_cons_of_mem _ h2)

/-- C4: reconciliation of an edited view in which no record's `drafted` value
differs from the Dataset's current value reports no change and an empty
changed-key list, and returns the Dataset exactly as it was. -/
theorem reconcile_no_diffs (df view : List PlayerRecord)
    (h : ∀ row ∈ view, firstDrafted df row.player = some row.drafted) :
    reconcile df view = .ok df false [] :=
  reconcileAux_no_diff view df false [] h

/-- Witness for C4: reconciling the scenario dataset against itself changes
nothing. -/
theorem reconcile_no_diffs_witness : reconcile dfScenario dfScenario = .ok dfScenario false [] :=
  reconcile_no_diffs dfScenario dfScenario (by decide)

/-- `commitDrafted` only touches the `drafted` field of the rows it rewrites. -/
theorem base_commit (df : List PlayerRecord) (n v : String) :
    (commitDrafted df n v).map base = df.map base := by
  unfold commitDrafted
  rw [List.map_map]
  apply List.map_congr_left
  intro r _
  simp only [Function.comp]
  split <;> rfl

/-- Whatever the loop does, every field other than `drafted` survives it. -/
theorem reconcileAux_map_base (view : List PlayerRecord) :
    ∀ (df : List PlayerRecord) (changed : Bool) (updated : List String),
      (outcomeDf (reconcileAux df changed updated view)).map base = df.map base := by
  induction view with
  | nil => intro df c u; rfl
  | cons row rest ih =>
    intro df c u
    rcases hfd : firstDrafted df row.player with _ | orig
    · simp [reconcileAux, hfd, outcomeDf]
    · simp only [reconcileAux, hfd]
      split
      · exact (ih _ true _).trans (base_commit df row.player row.drafted)
      · exact ih df c u

/-- C3: reconciliation only ever modifies the `drafted` field — projected onto
every other field, the post-reconciliation Dataset (normal or error outcome)
equals the pre-reconciliation Dataset row for row. -/
theorem reconcile_only_drafted (df view : List PlayerRecord) :
    (outcomeDf (reconcile df view)).map base = df.map base :=
  reconcileAux_map_base view df false []

/-- Whenever some view row's key is absent from the dataset, the loop ends in
the unknown-key error, for a key absent from the original dataset. -/
theorem reconcileAux_unknown (view : List PlayerRecord) :
    ∀ (df : List PlayerRecord) (changed : Bool) (updated : List String),
      (∃ row ∈ view, firstDrafted df row.player = none) →
      ∃ df2 p, reconcileAux df changed updated view = .unknownKey df2 p ∧
        firstDrafted df p = none := by
  induction view with
  | nil => intro df c u h; simp at h
  | cons row rest ih =>
    intro df c u h
    rcases hfd : firstDrafted df row.player with _ | orig
    · exact ⟨df, row.player, by simp [reconcileAux, hfd], hfd⟩
    · have hrest : ∃ row2 ∈ rest, firstDrafted df row2.player = none := by
        rcases h with ⟨row2, h2, hn⟩
        rcases List.mem_cons.1 h2 with rfl | h2'
        · rw [hfd] at hn; cases hn
        · exact ⟨row2, h2', hn⟩
      simp only [reconcileAux, hfd]
      split
      · obtain ⟨df2, p, heq, hp⟩ := ih (commitDrafted df row.player row.drafted) true
          (u ++ [row.player])
          (by
            rcases hrest with ⟨row2, h2, hn⟩
            exact ⟨row2, h2, (firstDrafted_commit_none_iff df row.player row.drafted
              row2.player).2 hn⟩)
        exact ⟨df2, p, heq,
          (firstDrafted_commit_none_iff df row.player row.drafted p).1 hp⟩
      · exact ih df c u hrest

/-- C1 (amended): reconciliation of an edited view containing a player key
absent from the Dataset ends in the unknown-key error (the uncaught
`IndexError` of `.iloc[0]`) for an absent key — but the Dataset is not rolled
back: edits of rows processed before the failing one stay committed (see the
counterexample `unknown_key_partial_commit`). -/
theorem reconcile_raises_on_unknown_key (df view : List PlayerRecord)
    (h : ∃ row ∈ view, firstDrafted df row.player = none) :
    raisesUnknownKey df view = true := by
  obtain ⟨df2, p, heq, hp⟩ := reconcileAux_unknown view df false [] h
  unfold raisesUnknownKey
  rw [show reconcile df view = .unknownKey df2 p from heq]
  simp [hp]

/-- Witness for the amended C1: a one-row view with an unknown key makes
reconciliation raise. -/
theorem reconcile_raises_on_unknown_key_witness : raisesUnknownKey dfW1 viewW1 = true :=
  reconcile_raises_on_unknown_key dfW1 viewW1 (by decide)

/-- C1 counterexample: the edited view `viewC1` edits row "A" and then
references the unknown key "X"; reconciliation raises the unknown-key error,
yet the Dataset is NOT left unchanged — "A"'s edit was already committed, so a
partial commit has happened, contrary to the claim. -/
theorem unknown_key_partial_commit :
    reconcile dfC1 viewC1 =
      .unknownKey [mkRec "A" "RB" "1" "My Team", mkRec "B" "WR" "2" "False"] "X" ∧
    outcomeDf (reconcile dfC1 viewC1) ≠ dfC1 := by
  decide

/-- A view row whose `drafted` value differs from the dataset's is counted as
a changed key. -/
theorem diffKeys_cons_pos (df : List PlayerRecord) (row : PlayerRecord) (rest : List PlayerRecord)
    (h : firstDrafted df row.player ≠ some row.drafted) :
    diffKeys df (row :: rest) = row.player :: diffKeys df rest := by
  unfold diffKeys
  rw [List.filter_cons_of_pos (by simp [h])]
  rfl

/-- A view row whose `drafted` value agrees with the dataset's is not counted
as a changed key. -/
theorem diffKeys_cons_neg (df : List PlayerRecord) (row : PlayerRecord) (rest : List PlayerRecord)
    (h : firstDrafted df row.player = some row.drafted) :
    diffKeys df (row :: rest) = diffKeys df rest := by
  unfold diffKeys
  rw [List.filter_cons_of_neg (by simp [h])]

/-- Committing the head row's edit first and then reconciling the rest against
the committed dataset is the same as what the spec expects the whole view to
produce, provided the rest of the view does not reuse the head's name. -/
theorem expectedDf_cons_commit (df : List PlayerRecord) (row : PlayerRecord)
    (rest : List PlayerRecord) (h : ∀ row2 ∈ rest, row2.player ≠ row.player) :
    expectedDf (commitDrafted df row.player row.drafted) rest = expectedDf df (row :: rest) := by
  unfold expectedDf commitDrafted
  rw [List.map_map]
  apply List.map_congr_left
  intro r _
  dsimp only [Function.comp]
  by_cases hrp : r.player = row.player
  · rw [if_pos hrp]
    dsimp only
    rw [viewLookup_eq_none rest r.player (by intro row2 h2; rw [hrp]; exact h row2 h2),
      viewLookup_cons_pos rest row r.player hrp.symm]
  · rw [if_neg hrp]
    rw [viewLookup_cons_neg rest row r.player (fun h2 => hrp h2.symm)]

/-- A head row whose `drafted` value already agrees with the (unique-name)
dataset contributes nothing to the spec-expected dataset. -/
theorem expectedDf_cons_nodiff (df : List PlayerRecord) (row : PlayerRecord)
    (rest : List PlayerRecord) (hdnd : (df.map (·.player)).Nodup)
    (hfd : firstDrafted df row.player = some row.drafted)
    (h : ∀ row2 ∈ rest, row2.player ≠ row.player) :
    expectedDf df (row :: rest) = expectedDf df rest := by
  unfold expectedDf
  apply List.map_congr_left
  intro r hr
  dsimp only
  by_cases hrp : r.player = row.player
  · rw [viewLookup_cons_pos rest row r.player hrp.symm,
      viewLookup_eq_none rest r.player (by intro row2 h2; rw [hrp]; exact h row2 h2)]
    show ({ r with drafted := row.drafted } : PlayerRecord) = r
    have h1 : firstDrafted df r.player = some r.drafted :=
      firstDrafted_of_mem_nodup df r hdnd hr
    rw [hrp] at h1
    have h2 : row.drafted = r.drafted := Option.some.inj (hfd.symm.trans h1)
    rw [h2]
  · rw [viewLookup_cons_neg rest row r.player (fun h2 => hrp h2.symm)]

/-- The loop computes exactly the spec-expected dataset, changed flag and
changed-key list, for any accumulator state, when every view key exists and
names are unique on both sides. -/
theorem reconcileAux_ok (view : List PlayerRecord) :
    ∀ (df : List PlayerRecord) (changed : Bool) (updated : List String),
      (∀ row ∈ view, (firstDrafted df row.player).isSome) →
      (df.map (·.player)).Nodup →
      (view.map (·.player)).Nodup →
      reconcileAux df changed updated view =
        .ok (expectedDf df view) (changed || !(diffKeys df view).isEmpty)
          (updated ++ diffKeys df view) := by
  induction view with
  | nil =>
    intro df c u _ _ _
    simp [reconcileAux, expectedDf_nil, diffKeys]
  | cons row rest ih =>
    intro df c u hkeys hdnd hvnd
    rw [List.map_cons, List.nodup_cons] at hvnd
    have hrest_ne : ∀ row2 ∈ rest, row2.player ≠ row.player := by
      intro row2 h2 heq
      apply hvnd.1
      rw [← heq]
      exact List.mem_map.2 ⟨row2, h2, rfl⟩
    obtain ⟨orig, horig⟩ := Option.isSome_iff_exists.1 (hkeys row (List.mem_cons_self row rest))
    simp only [reconcileAux, horig]
    split_ifs with hne
    · have hdiff : firstDrafted df row.player ≠ some row.drafted := by
        rw [horig]
        intro hc
        exact hne (Option.some.inj hc)
      rw [ih (commitDrafted df row.player row.drafted) true (u ++ [row.player])
        (fun row2 h2 => by
          rw [firstDrafted_commit_ne df row.player row.drafted row2.player (hrest_ne row2 h2)]
          exact hkeys row2 (List.mem_cons_of_mem _ h2))
        (by rw [commit_players]; exact hdnd)
        hvnd.2]
      rw [expectedDf_cons_commit df row rest hrest_ne]
      rw [diffKeys_commit df rest row.player row.drafted hrest_ne]
      rw [diffKeys_cons_pos df row rest hdiff]
      simp [List.append_assoc]
    · rw [not_ne_iff] at hne
      have horig2 : firstDrafted df row.player = some row.drafted := by
        rw [horig, hne]
      rw [ih df c u (fun row2 h2 => hkeys row2 (List.mem_cons_of_mem _ h2)) hdnd hvnd.2]
      rw [expectedDf_cons_nodiff df row rest hdnd horig2 hrest_ne]
      rw [diffKeys_cons_neg df row rest horig2]

/-- C2: over a common key space with unique names, reconciliation commits the
new `drafted` value for exactly the keys whose value differs (every dataset
row takes its view row's `drafted` value, rows without a view entry are
untouched), reports exactly those keys as changed, in view order, and reports
that a change occurred iff that list is nonempty. -/
theorem reconcile_exact_diffs (df view : List PlayerRecord)
    (hkeys : ∀ row ∈ view, (firstDrafted df row.player).isSome)
    (hdnd : (df.map (·.player)).Nodup)
    (hvnd : (view.map (·.player)).Nodup) :
    reconcile df view =
      .ok (expectedDf df view) (!(diffKeys df view).isEmpty) (diffKeys df view) := by
  have h := reconcileAux_ok view df false [] hkeys hdnd hvnd
  simpa [reconcile] using h

/-- Witness for C2 — the spec's scenario: Dataset [A:RB:False, B:WR:False],
view editing A to "My Team"; the changed keys are exactly ["A"], A's `drafted`
becomes "My Team", B is unchanged, and a change is reported. -/
theorem reconcile_exact_diffs_witness :
    reconcile dfScenario viewScenario =
      .ok [mkRec "A" "RB" "1" "My Team", mkRec "B" "WR" "1" "False"] true ["A"] := by
  rw [reconcile_exact_diffs dfScenario viewScenario (by decide) (by decide) (by decide)]
  decide

/-- C10: reconciliation matches rows by equality on the whole `Player` column:
committing an edited `drafted` value writes it to every dataset row bearing
that name (the boolean-mask assignment), and leaves every other row alone. -/
theorem reconcile_updates_all_matching_rows (df : List PlayerRecord) (row : PlayerRecord)
    (hk : (firstDrafted df row.player).isSome)
    (hdiff : firstDrafted df row.player ≠ some row.drafted) :
    reconcile df [row] =
      .ok (df.map fun r => if r.player = row.player then { r with drafted := row.drafted } else r)
        true [row.player] := by
  obtain ⟨orig, horig⟩ := Option.isSome_iff_exists.1 hk
  have hne : orig ≠ row.drafted := by
    intro heq
    exact hdiff (by rw [horig, heq])
  unfold reconcile
  simp only [reconcileAux, horig]
  rw [if_pos hne]
  simp [reconcileAux, commitDrafted]

/-- Witness for C10: the name "A" appears on two dataset rows; editing the one
displayed row for "A" updates both rows named "A" and leaves "B" alone. -/
theorem reconcile_updates_all_matching_rows_witness :
    reconcile dfW10 [mkRec "A" "RB" "1" "My Team"] =
      .ok [mkRec "A" "RB" "1" "My Team", mkRec "A" "RB" "2" "My Team",
        mkRec "B" "WR" "1" "False"] true ["A"] := by
  rw [reconcile_updates_all_matching_rows dfW10 (mkRec "A" "RB" "1" "My Team") (by decide)
    (by decide)]
  decide

/-- Membership characterization of the filter engine: a record is in the
output iff it is in the input and every active criterion matches it, the
search criterion being the case-insensitive regex search of `str_contains`. -/
theorem mem_filter_dataframe (df : List PlayerRecord) (position round search_term : String)
    (r : PlayerRecord) :
    r ∈ filter_dataframe df position round search_term ↔
      r ∈ df ∧ (position = "All" ∨ r.position = position) ∧
        (round = "All" ∨ r.round = round) ∧
        (search_term = "" ∨ str_contains r.player search_term = true) := by
  unfold filter_dataframe
  by_cases hp : position = "All" <;> by_cases hrd : round = "All" <;>
    by_cases hs : search_term = "" <;>
    simp [hp, hrd, hs, List.mem_filter, and_assoc] <;> tauto

/-- Refiltering a list whose members already satisfy every active criterion
changes nothing. -/
theorem filter_stages_eq (L : List PlayerRecord) (position round search_term : String)
    (hmem : ∀ a ∈ L, (position = "All" ∨ a.position = position) ∧
      (round = "All" ∨ a.round = round) ∧
      (search_term = "" ∨ str_contains a.player search_term = true)) :
    filter_dataframe L position round search_term = L := by
  have e1 : (if position ≠ "All" then L.filter (fun r => decide (r.position = position)) else L)
      = L := by
    split_ifs with h
    · apply List.filter_eq_self.2
      intro a ha
      rcases (hmem a ha).1 with hAll | hposa
      · exact absurd hAll h
      · simp [hposa]
    · rfl
  have e2 : (if round ≠ "All" then L.filter (fun r => decide (r.round = round)) else L) = L := by
    split_ifs with h
    · apply List.filter_eq_self.2
      intro a ha
      rcases (hmem a ha).2.1 with hAll | hrda
      · exact absurd hAll h
      · simp [hrda]
    · rfl
  have e3 : (if search_term ≠ "" then L.filter (fun r => str_contains r.player search_term)
      else L) = L := by
    split_ifs with h
    · apply List.filter_eq_self.2
      intro a ha
      rcases (hmem a ha).2.2 with hAll | hsa
      · exact absurd hAll h
      · exact hsa
    · rfl
  unfold filter_dataframe
  dsimp only
  rw [e1, e2, e3]

/-- C7: filtering is idempotent — applying the filter engine to its own output
with the same criteria returns that output unchanged. -/
theorem filter_idempotent (df : List PlayerRecord) (position round search_term : String) :
    filter_dataframe (filter_dataframe df position round search_term) position round search_term
      = filter_dataframe df position round search_term :=
  filter_stages_eq (filter_dataframe df position round search_term) position round search_term
    (fun a ha => ((mem_filter_dataframe df position round search_term a).1 ha).2)

/-- The loop only ever writes `drafted` values taken from the edited view, so
it preserves any value set containing both sides — stated for the editor's
enumerated set, on both the normal and the error outcome. -/
theorem reconcileAux_drafted_mem (view : List PlayerRecord) :
    ∀ (df : List PlayerRecord) (changed : Bool) (updated : List String),
      (∀ r ∈ df, r.drafted ∈ draftedEditorValues) →
      (∀ row ∈ view, row.drafted ∈ draftedEditorValues) →
      ∀ r ∈ outcomeDf (reconcileAux df changed updated view),
        r.drafted ∈ draftedEditorValues := by
  induction view with
  | nil =>
    intro df c u hdf _
    simpa only [reconcileAux, outcomeDf] using hdf
  | cons row rest ih =>
    intro df c u hdf hview
    rcases hfd : firstDrafted df row.player with _ | orig
    · simp only [reconcileAux, hfd, outcomeDf]
      exact hdf
    · simp only [reconcileAux, hfd]
      split_ifs with hne
      · apply ih _ true _
        · intro r hrmem
          unfold commitDrafted at hrmem
          rcases List.mem_map.1 hrmem with ⟨r0, hr0, rfl⟩
          by_cases h0 : r0.player = row.player
          · rw [if_pos h0]
            exact hview row (List.mem_cons_self row rest)
          · rw [if_neg h0]
            exact hdf r0 hr0
        · exact fun row2 h2 => hview row2 (List.mem_cons_of_mem _ h2)
      · exact ih df c u hdf fun row2 h2 => hview row2 (List.mem_cons_of_mem _ h2)

/-- C9: the `drafted` tri-state invariant: `load_data` initializes every
row's `drafted` to "False" (the Undrafted state, a member of the editor's
enumerated set {"False", "My Team", "Other Team"}); filtering preserves
membership in the set; and reconciliation preserves it — on the error path
too — whenever the edited view only carries editor values, which the
restricted `agSelectCellEditor` guarantees. -/
theorem drafted_invariant :
    (∀ (df : List PlayerRecord), ∀ r ∈ load_data df, r.drafted = "False") ∧
    "False" ∈ draftedEditorValues ∧
    (∀ (df : List PlayerRecord) (position round search_term : String),
      (∀ r ∈ df, r.drafted ∈ draftedEditorValues) →
      ∀ r ∈ filter_dataframe df position round search_term,
        r.drafted ∈ draftedEditorValues) ∧
    (∀ df view : List PlayerRecord,
      (∀ r ∈ df, r.drafted ∈ draftedEditorValues) →
      (∀ row ∈ view, row.drafted ∈ draftedEditorValues) →
      ∀ r ∈ outcomeDf (reconcile df view), r.drafted ∈ draftedEditorValues) := by
  refine ⟨?_, by decide, ?_, ?_⟩
  · intro df r hr
    rcases List.mem_map.1 hr with ⟨r0, _, rfl⟩
    rfl
  · intro df position round search_term hdf r hr
    exact hdf r ((mem_filter_dataframe df position round search_term r).1 hr).1
  · intro df view hdf hview
    exact reconcileAux_drafted_mem view df false [] hdf hview

/-- Witness for C9: after reconciling a one-row dataset with an edit to
"My Team", the updated row's `drafted` value is still in the enumerated set. -/
theorem drafted_invariant_witness :
    (mkRec "A" "RB" "1" "My Team").drafted ∈ draftedEditorValues :=
  drafted_invariant.2.2.2 dfW9 viewW9 (by decide) (by decide)
    (mkRec "A" "RB" "1" "My Team") (by decide)
